import Mathlib

/-!
Verification development for game-server-base (gsb).

The Python sources embedded here are `gsb/server.py` (command dispatch),
`gsb/protocol.py` (connection / parser lifecycle, line decoding) and the
Menu subsystem described by the specification (its module `gsb/intercept.py`
is not among the available sources, so it is modelled from the spec).

Handlers, guards and compiled regular expressions are opaque callables in
the Python code; they are embedded as Lean functions carried inside the
`Command` record.  Side effects that matter to the claims (which handler
ran, which hook fired, which line was sent to the connection) are recorded
as explicit event lists.
-/

namespace GSB

/-- Modelled from the spec: `gsb/caller.py` is not among the sources.
Per the spec's data model, a `Caller` threads a (weak) connection
reference, the raw input text, the match result of the last dispatch
attempt and an optional captured fault.  Connections are identified by a
numeric id; the match object returned by `re.search` is abstracted to a
numeric id as well, and so are exception values. -/
structure Caller where
  connection : Option Nat
  text : String
  matched : Option Nat
  exception : Option Nat
deriving DecidableEq, Repr

/-- Outcome of invoking a Python command handler: normal return,
`DontStopException` (the control-flow skip from `gsb/caller.py`), or any
other exception, identified by a numeric code. -/
inductive HandlerResult where
  | ok : HandlerResult
  | dontStop : HandlerResult
  | exn : Nat → HandlerResult
deriving DecidableEq, Repr

/-- Modelled from the spec: `gsb/command.py` is not among the sources.
Per the spec, a `Command` is a pattern (searched, not anchored), a handler
and an optional guard; `server.py` reads the attributes `regexp`,
`allowed` and `func`.  The compiled pattern's behaviour
`re.search(cmd.regexp, line)` is embedded as the function `search`
returning an optional match id. -/
structure Command where
  search : String → Option Nat
  allowed : Option (Caller → Bool)
  func : Caller → HandlerResult

/-- Observable effects of one dispatch pass (`Server.handle_line`):
`ran i` records that the handler of the command at index `i` was invoked,
`errorHook` that `Server.on_error` fired, `fallback` that `Server.huh`
fired, and `sent s` that the line `s` was sent to the connection via
`Server.notify`. -/
inductive Event where
  | ran : Nat → Event
  | errorHook : Event
  | fallback : Event
  | sent : String → Event
deriving DecidableEq, Repr

/-- Effects of the default `Server.on_error` (server.py lines 92-96): the
hook fires and notifies the connection of a generic failure message. -/
def onErrorEvents : List Event :=
  [Event.errorHook, Event.sent "There was an error with your command."]

/-- Effects of the default `Server.huh` (server.py lines 133-135). -/
def huhEvents : List Event :=
  [Event.fallback, Event.sent "I don't understand that."]

/-- The `for cmd in self.commands: ... else: ...` loop of
`Server.handle_line` (server.py lines 111-131).  `i` is the index of the
head command in the registration order, used only to label `Event.ran`.
Each iteration stores the search result on the caller, tests eligibility
(`caller.match is not None and (cmd.allowed is None or
cmd.allowed(caller))`), invokes the handler of the first eligible command
and breaks, continuing on `DontStopException` and routing any other
exception to `caller.exception` and `on_error` before breaking.  The
`else` branch (list exhausted) clears `caller.match` and runs `huh`. -/
def dispatch (line : String) : Caller → Nat → List Command → Caller × List Event
  | caller, _, [] => ({ caller with matched := none }, huhEvents)
  | caller, i, cmd :: rest =>
    let m := cmd.search line
    let caller' := { caller with matched := m }
    if m.isSome && (match cmd.allowed with
                    | none => true
                    | some g => g caller') then
      match cmd.func caller' with
      | HandlerResult.ok => (caller', [Event.ran i])
      | HandlerResult.dontStop =>
        let r := dispatch line caller' (i + 1) rest
        (r.1, Event.ran i :: r.2)
      | HandlerResult.exn e =>
        ({ caller' with exception := some e }, Event.ran i :: onErrorEvents)
    else
      dispatch line caller' (i + 1) rest

/-- The slice of `Server` that `handle_line` reads: the ordered command
list and the overridable `on_command` pre-hook (default: return `True`,
server.py lines 88-90). -/
structure Server where
  commands : List Command
  on_command : Caller → Bool := fun _ => true

/-- `Server.handle_line` (server.py lines 106-131): build a fresh `Caller`
from the connection and the line, consult `on_command`, and if it returns
true run the dispatch loop; otherwise do nothing at all. -/
def handle_line (srv : Server) (conn : Option Nat) (line : String) :
    Caller × List Event :=
  let caller : Caller :=
    { connection := conn, text := line, matched := none, exception := none }
  if srv.on_command caller then
    dispatch line caller 0 srv.commands
  else
    (caller, [])

/-- The caller state as it stands inside an iteration of the dispatch
loop, just after `caller.match = search(cmd.regexp, line)`. -/
def mkCaller (conn : Option Nat) (line : String) (m : Option Nat) : Caller :=
  { connection := conn, text := line, matched := m, exception := none }

/-- Eligibility of a command for a line, exactly the `if` condition of the
loop evaluated at the caller state of that iteration. -/
def eligibleAt (conn : Option Nat) (line : String) (cmd : Command) : Bool :=
  (cmd.search line).isSome &&
    (match cmd.allowed with
     | none => true
     | some g => g (mkCaller conn line (cmd.search line)))

/-- Indices of the handlers that were invoked, in order. -/
def ranOf : List Event → List Nat
  | [] => []
  | Event.ran i :: es => i :: ranOf es
  | _ :: es => ranOf es

/-- An iteration over an ineligible command only overwrites
`caller.match` and moves on ( the `else` of the inner `if`). -/
theorem dispatch_cons_ineligible (conn : Option Nat) (line : String)
    (m0 : Option Nat) (i : Nat) (cmd : Command) (rest : List Command)
    (hnot : eligibleAt conn line cmd = false) :
    dispatch line (mkCaller conn line m0) i (cmd :: rest) =
      dispatch line (mkCaller conn line (cmd.search line)) (i + 1) rest := by
  unfold eligibleAt at hnot
  simp only [dispatch]
  rw [show ({ mkCaller conn line m0 with matched := cmd.search line } : Caller)
        = mkCaller conn line (cmd.search line) from rfl]
  simp [hnot]

/-- An iteration over an eligible command invokes its handler on the
caller carrying this command's search result and then either breaks
(`ok`), continues (`DontStopException`) or records the exception, fires
`on_error` and breaks. -/
theorem dispatch_cons_eligible (conn : Option Nat) (line : String)
    (m0 : Option Nat) (i : Nat) (cmd : Command) (rest : List Command)
    (hel : eligibleAt conn line cmd = true) :
    dispatch line (mkCaller conn line m0) i (cmd :: rest) =
      match cmd.func (mkCaller conn line (cmd.search line)) with
      | HandlerResult.ok => (mkCaller conn line (cmd.search line), [Event.ran i])
      | HandlerResult.dontStop =>
        let r := dispatch line (mkCaller conn line (cmd.search line)) (i + 1) rest
        (r.1, Event.ran i :: r.2)
      | HandlerResult.exn e =>
        ({ mkCaller conn line (cmd.search line) with exception := some e },
         Event.ran i :: onErrorEvents) := by
  unfold eligibleAt at hel
  simp only [dispatch]
  rw [show ({ mkCaller conn line m0 with matched := cmd.search line } : Caller)
        = mkCaller conn line (cmd.search line) from rfl]
  simp [hel]
  rcases cmd.func (mkCaller conn line (cmd.search line)) with _ | _ | e <;> rfl

/-- Running the loop across a block of ineligible commands invokes no
handler, emits no event, and only leaves some search result in
`caller.match`, to be overwritten (or cleared) by whatever follows. -/
theorem dispatch_append_ineligible (conn : Option Nat) (line : String)
    (pre : List Command)
    (hpre : ∀ c ∈ pre, eligibleAt conn line c = false) :
    ∀ (m0 : Option Nat) (i : Nat) (rest : List Command),
    ∃ m1, dispatch line (mkCaller conn line m0) i (pre ++ rest) =
      dispatch line (mkCaller conn line m1) (i + pre.length) rest := by
  induction pre with
  | nil => exact fun m0 i rest => ⟨m0, by simp⟩
  | cons c cs ih =>
    intro m0 i rest
    have hc : eligibleAt conn line c = false := hpre c (List.mem_cons_self c cs)
    obtain ⟨m1, h⟩ :=
      ih (fun d hd => hpre d (List.mem_cons_of_mem c hd)) (c.search line) (i + 1) rest
    refine ⟨m1, ?_⟩
    rw [List.cons_append, dispatch_cons_ineligible conn line m0 i c (cs ++ rest) hc, h]
    rw [show i + 1 + cs.length = i + (c :: cs).length from by simp; omega]

/-- When the `on_command` pre-hook accepts the line, `handle_line` is the
dispatch loop started at index 0 on a fresh caller. -/
theorem handle_line_dispatch (srv : Server) (conn : Option Nat) (line : String)
    (hon : srv.on_command (mkCaller conn line none) = true) :
    handle_line srv conn line = dispatch line (mkCaller conn line none) 0 srv.commands := by
  have hdef : handle_line srv conn line =
      (if srv.on_command (mkCaller conn line none) = true
       then dispatch line (mkCaller conn line none) 0 srv.commands
       else (mkCaller conn line none, [])) := rfl
  rw [hdef, if_pos hon]

/-- Claim C1: for every received line and every ordered command list,
`Server.handle_line` invokes the handler of exactly the first command in
registration order whose pattern search succeeds and whose guard is
absent or true on the caller, and iteration stops there, provided that
handler does not raise `DontStopException`. -/
theorem first_eligible_wins (conn : Option Nat) (line : String)
    (oncmd : Caller → Bool) (pre post : List Command) (cmd : Command)
    (hon : oncmd (mkCaller conn line none) = true)
    (hpre : ∀ c ∈ pre, eligibleAt conn line c = false)
    (hcmd : eligibleAt conn line cmd = true)
    (hns : cmd.func (mkCaller conn line (cmd.search line)) ≠ HandlerResult.dontStop) :
    ranOf (handle_line { commands := pre ++ cmd :: post, on_command := oncmd } conn line).2
      = [pre.length] := by
  rw [handle_line_dispatch _ _ _ hon]
  obtain ⟨m1, h⟩ := dispatch_append_ineligible conn line pre hpre none 0 (cmd :: post)
  rw [h, dispatch_cons_eligible conn line m1 (0 + pre.length) cmd post hcmd]
  rcases hres : cmd.func (mkCaller conn line (cmd.search line)) with _ | _ | e
  · simp [ranOf]
  · exact absurd hres hns
  · simp [ranOf, onErrorEvents]

def goodCmd : Command :=
  { search := fun l => if l = "good" then some 0 else none
    allowed := none
    func := fun _ => HandlerResult.ok }

def badCmd : Command :=
  { search := fun l => if l = "bad" then some 0 else none
    allowed := none
    func := fun _ => HandlerResult.ok }

theorem first_eligible_wins_witness :
    ranOf (handle_line { commands := [badCmd, goodCmd], on_command := fun _ => true }
      none "good").2 = [1] :=
  first_eligible_wins none "good" (fun _ => true) [badCmd] [] goodCmd rfl
    (by decide) (by decide) (by decide)

/-- Claim C3: if the invoked command's handler raises any exception other
than `DontStopException`, the caller's `exception` field is set to that
fault, `on_error` fires exactly once (by default notifying the connection
of the generic failure message), and no later command is tried: the
faulting command counts as matched, so `huh` does not run.  The event
list of the whole pass is exactly the handler run followed by the error
hook and its single notification. -/
theorem handler_fault_error_hook_once (conn : Option Nat) (line : String)
    (oncmd : Caller → Bool) (pre post : List Command) (cmd : Command) (e : Nat)
    (hon : oncmd (mkCaller conn line none) = true)
    (hpre : ∀ c ∈ pre, eligibleAt conn line c = false)
    (hcmd : eligibleAt conn line cmd = true)
    (hexn : cmd.func (mkCaller conn line (cmd.search line)) = HandlerResult.exn e) :
    handle_line { commands := pre ++ cmd :: post, on_command := oncmd } conn line =
      ({ connection := conn, text := line, matched := cmd.search line,
         exception := some e },
       [Event.ran pre.length, Event.errorHook,
        Event.sent "There was an error with your command."]) := by
  rw [handle_line_dispatch _ _ _ hon]
  obtain ⟨m1, h⟩ := dispatch_append_ineligible conn line pre hpre none 0 (cmd :: post)
  rw [h, dispatch_cons_eligible conn line m1 (0 + pre.length) cmd post hcmd, hexn]
  simp [onErrorEvents, mkCaller]

def faultyCmd : Command :=
  { search := fun l => if l = "boom" then some 0 else none
    allowed := none
    func := fun _ => HandlerResult.exn 7 }

theorem handler_fault_error_hook_once_witness :
    handle_line { commands := [faultyCmd, goodCmd], on_command := fun _ => true }
      none "boom" =
      ({ connection := none, text := "boom", matched := faultyCmd.search "boom",
         exception := some 7 },
       [Event.ran 0, Event.errorHook,
        Event.sent "There was an error with your command."]) :=
  handler_fault_error_hook_once none "boom" (fun _ => true) [] [goodCmd] faultyCmd 7
    rfl (by decide) (by decide) rfl

/-- Claim C4: if the invoked command's handler raises
`DontStopException`, dispatch proceeds with the remaining commands in
registration order; the skipping step contributes nothing beyond the
record of the handler's own run — no error hook, no fallback, no
notification — and does not by itself end the iteration. -/
theorem dont_stop_continues_dispatch (conn : Option Nat) (line : String)
    (oncmd : Caller → Bool) (cmd : Command) (rest : List Command)
    (hon : oncmd (mkCaller conn line none) = true)
    (hcmd : eligibleAt conn line cmd = true)
    (hds : cmd.func (mkCaller conn line (cmd.search line)) = HandlerResult.dontStop) :
    handle_line { commands := cmd :: rest, on_command := oncmd } conn line =
      ((dispatch line (mkCaller conn line (cmd.search line)) 1 rest).1,
       Event.ran 0 :: (dispatch line (mkCaller conn line (cmd.search line)) 1 rest).2) := by
  rw [handle_line_dispatch _ _ _ hon]
  rw [dispatch_cons_eligible conn line none 0 cmd rest hcmd, hds]

def skipCmd : Command :=
  { search := fun l => if l = "good" then some 1 else none
    allowed := none
    func := fun _ => HandlerResult.dontStop }

theorem dont_stop_continues_dispatch_witness :
    handle_line { commands := [skipCmd, goodCmd], on_command := fun _ => true }
      none "good" =
      ((dispatch "good" (mkCaller none "good" (skipCmd.search "good")) 1 [goodCmd]).1,
       Event.ran 0 ::
         (dispatch "good" (mkCaller none "good" (skipCmd.search "good")) 1 [goodCmd]).2) :=
  dont_stop_continues_dispatch none "good" (fun _ => true) skipCmd [goodCmd]
    rfl (by decide) rfl

/-- Claim C5: if no command is eligible (every search fails or every
guard refuses), the caller's match is cleared to `none`, no command
handler runs, and the fallback `huh` runs exactly once, by default
notifying the connection with the fixed message. -/
theorem no_match_fallback_runs_once (conn : Option Nat) (line : String)
    (oncmd : Caller → Bool) (cmds : List Command)
    (hon : oncmd (mkCaller conn line none) = true)
    (hall : ∀ c ∈ cmds, eligibleAt conn line c = false) :
    handle_line { commands := cmds, on_command := oncmd } conn line =
      ({ connection := conn, text := line, matched := none, exception := none },
       [Event.fallback, Event.sent "I don't understand that."]) := by
  rw [handle_line_dispatch _ _ _ hon]
  obtain ⟨m1, h⟩ := dispatch_append_ineligible conn line cmds hall none 0 []
  rw [List.append_nil] at h
  rw [h]
  simp [dispatch, huhEvents, mkCaller]

theorem no_match_fallback_runs_once_witness :
    handle_line { commands := [goodCmd, badCmd], on_command := fun _ => true }
      none "nothing" =
      ({ connection := none, text := "nothing", matched := none, exception := none },
       [Event.fallback, Event.sent "I don't understand that."]) :=
  no_match_fallback_runs_once none "nothing" (fun _ => true) [goodCmd, badCmd]
    rfl (by decide)

/-- Claim C7: if the overridable `on_command` pre-hook returns false, the
whole dispatch pass is suppressed for that line: no command handler runs
and the fallback does not fire either — `handle_line` produces no event
at all. -/
theorem on_command_false_suppresses_dispatch (conn : Option Nat) (line : String)
    (oncmd : Caller → Bool) (cmds : List Command)
    (hoff : oncmd (mkCaller conn line none) = false) :
    handle_line { commands := cmds, on_command := oncmd } conn line =
      (mkCaller conn line none, []) := by
  have hdef : handle_line { commands := cmds, on_command := oncmd } conn line =
      (if oncmd (mkCaller conn line none) = true
       then dispatch line (mkCaller conn line none) 0 cmds
       else (mkCaller conn line none, [])) := rfl
  rw [hdef, if_neg]
  simp [hoff]

theorem on_command_false_suppresses_dispatch_witness :
    handle_line { commands := [goodCmd], on_command := fun _ => false }
      none "good" = (mkCaller none "good" none, []) :=
  on_command_false_suppresses_dispatch none "good" (fun _ => false) [goodCmd] rfl

/-! ## Connection / parser lifecycle (`gsb/protocol.py`) -/

/-- A parser capability, identified by a numeric id.  Its `on_attach` and
`on_detach` lifecycle hooks are opaque side-effecting callbacks; their
invocations are recorded as `PEvent`s. -/
structure Parser where
  id : Nat
deriving DecidableEq, Repr

/-- The decode/encode error policy of Python's `str`/`bytes` codecs as
used by `protocol.py`: `errors` is one of `strict` (raise on malformed
input), `ignore` (drop malformed sequences) or `replace` (substitute a
replacement character). -/
inductive DecodePolicy where
  | strict : DecodePolicy
  | ignore : DecodePolicy
  | replace : DecodePolicy
deriving DecidableEq, Repr

/-- Observable effects of the parser lifecycle: `detach p next` records
`p.on_detach(self, next)` with `next` the raw replacement value (absent
when the setter was handed `None`); `warn` records the warning-level
diagnostic logged when falling back on the server's default parser;
`attach p prev` records `p.on_attach(self, prev)`. -/
inductive PEvent where
  | detach : Nat → Option Nat → PEvent
  | warn : PEvent
  | attach : Nat → Option Nat → PEvent
deriving DecidableEq, Repr

/-- The state of a `Protocol` instance (protocol.py lines 27-40) that the
claims depend on: identity, the private parser reference behind the
`parser` property, and the codec policies, defaulting to
`(sys.getdefaultencoding(), 'replace')` for encoding and
`(sys.getdefaultencoding(), 'ignore')` for decoding.  The `attrib()` for
the parser has no default, and nothing prevents constructing the
protocol with `None` there. -/
structure Protocol where
  host : String
  port : Nat
  parserRef : Option Parser
  encodeArgs : DecodePolicy := DecodePolicy.replace
  decodeArgs : DecodePolicy := DecodePolicy.ignore
deriving DecidableEq, Repr

/-- The `parser` property setter (protocol.py lines 47-60): remember the
old parser; if one is attached, call its `on_detach` hook with the raw
new value; if the new value is `None`, fall back on
`self.server.default_parser` (here passed in as `defaultParser`, since
`default_parser` lives on the server object) and log a warning; store the
resulting value and call its `on_attach` hook with the old parser. -/
def Protocol.setParser (p : Protocol) (defaultParser : Parser)
    (value : Option Parser) : Protocol × List PEvent :=
  let old := p.parserRef
  let detachEvents : List PEvent :=
    match old with
    | some op => [PEvent.detach op.id (value.map Parser.id)]
    | none => []
  match value with
  | none =>
    ({ p with parserRef := some defaultParser },
     detachEvents ++
       [PEvent.warn, PEvent.attach defaultParser.id (old.map Parser.id)])
  | some v =>
    ({ p with parserRef := some v },
     detachEvents ++ [PEvent.attach v.id (old.map Parser.id)])

/-- `Protocol.connectionMade` (protocol.py lines 67-78), restricted to
its effect on the parser state: the parser reference is left untouched,
and the attach hook fires with "no previous parser" only when a parser
is already set (the code guards with `if self.parser is not None`).
Registration in the server's connection list and the `on_connect` hook
do not touch the parser and are omitted. -/
def Protocol.connectionMade (p : Protocol) : Protocol × List PEvent :=
  (p,
   match p.parserRef with
   | some pr => [PEvent.attach pr.id none]
   | none => [])

/-- Claim C2, counterexample: the claim says the parser reference is
never absent at any instant after creation, but `_parser` is an ordinary
constructor argument that may be `None`, and `connectionMade` tolerates
and preserves that absence (its `if self.parser is not None` guard).  A
protocol constructed with `None` has no parser attached. -/
theorem parser_absent_after_creation :
    (Protocol.mk "127.0.0.1" 1987 none DecodePolicy.replace
        DecodePolicy.ignore).parserRef = none ∧
    ((Protocol.mk "127.0.0.1" 1987 none DecodePolicy.replace
        DecodePolicy.ignore).connectionMade).1.parserRef = none := by
  decide

/-- Claim C2, amended: it is the parser *setter* that never leaves the
reference absent — after any invocation of `Protocol.setParser` the
connection holds a parser (the given one, or the server's default when
the given value was `None`).  A connection constructed with an absent
parser, however, has none until the setter first runs. -/
theorem setParser_leaves_parser_present (p : Protocol) (defaultParser : Parser)
    (value : Option Parser) :
    ((p.setParser defaultParser value).1.parserRef).isSome = true := by
  rcases value with _ | v <;> simp [Protocol.setParser]

/-- Claim C6: setting a connection's parser invokes, in order, the old
parser's detach hook (if one is attached) with the raw new value as
context, then — when the new value is absent — logs the warning for the
default-parser fallback, then the (possibly substituted) parser's attach
hook with the previous parser as context; afterwards the active parser
is the new or default-substituted one. -/
theorem setParser_hook_order (p : Protocol) (defaultParser : Parser)
    (value : Option Parser) :
    (p.setParser defaultParser value).1.parserRef = some (value.getD defaultParser) ∧
    (p.setParser defaultParser value).2 =
      (match p.parserRef with
       | some op => [PEvent.detach op.id (value.map Parser.id)]
       | none => []) ++
      (match value with
       | none => [PEvent.warn]
       | some _ => []) ++
      [PEvent.attach (value.getD defaultParser).id (p.parserRef.map Parser.id)] := by
  rcases value with _ | v <;> rcases hp : p.parserRef with _ | op <;>
    simp [Protocol.setParser, hp]

/-- Claim C10: when the setter is handed `None` while a parser is
attached, the outgoing parser's detach hook receives `None` as its
replacement argument — not the default parser that actually ends up
replacing it — because the default substitution happens only after the
detach hook has run. -/
theorem detach_hook_receives_none (p : Protocol) (defaultParser : Parser)
    (op : Parser) (h : p.parserRef = some op) :
    (p.setParser defaultParser none).2 =
      [PEvent.detach op.id none, PEvent.warn,
       PEvent.attach defaultParser.id (some op.id)] := by
  simp [Protocol.setParser, h]

theorem detach_hook_receives_none_witness :
    ((Protocol.mk "127.0.0.1" 1987 (some (Parser.mk 5)) DecodePolicy.replace
        DecodePolicy.ignore).setParser (Parser.mk 0) none).2 =
      [PEvent.detach 5 none, PEvent.warn, PEvent.attach 0 (some 5)] :=
  detach_hook_receives_none _ (Parser.mk 0) (Parser.mk 5) rfl

/-! ## Line decoding (`Protocol.lineReceived`) -/

/-- A UTF-8 continuation byte. -/
def isCont (b : Nat) : Bool := 0x80 ≤ b && b ≤ 0xBF

/-- Modelled from the spec: `line.decode(*self.decode_args)` delegates to
Python's built-in UTF-8 codec (`sys.getdefaultencoding()`), which is not
part of this repository; the spec requires that the configured lossy
policy "must tolerate and not fail on malformed byte sequences by
substituting/ignoring invalid sequences".  Bytes are decoded to a list
of code points; `none` models a raised `UnicodeDecodeError`.  Under
`strict` any malformed lead, truncated sequence or stray continuation
byte raises; under `ignore` the offending byte is dropped and decoding
continues; under `replace` it yields U+FFFD and continues. -/
def decodeBytes (pol : DecodePolicy) : List Nat → Option (List Nat)
  | [] => some []
  | b :: bs =>
    if b < 0x80 then
      (decodeBytes pol bs).map (fun r => b :: r)
    else if 0xC2 ≤ b && b ≤ 0xDF then
      match hbs : bs with
      | c1 :: bs2 =>
        if isCont c1 then
          (decodeBytes pol bs2).map
            (fun r => ((b - 0xC0) * 0x40 + (c1 - 0x80)) :: r)
        else
          match pol with
          | DecodePolicy.strict => none
          | DecodePolicy.ignore => decodeBytes pol bs
          | DecodePolicy.replace => (decodeBytes pol bs).map (fun r => 0xFFFD :: r)
      | [] =>
        match pol with
        | DecodePolicy.strict => none
        | DecodePolicy.ignore => some []
        | DecodePolicy.replace => some [0xFFFD]
    else if 0xE0 ≤ b && b ≤ 0xEF then
      match hbs : bs with
      | c1 :: bs' =>
        match hbs' : bs' with
        | c2 :: bs3 =>
          if isCont c1 && isCont c2 then
            (decodeBytes pol bs3).map
              (fun r => ((b - 0xE0) * 0x1000 + (c1 - 0x80) * 0x40 + (c2 - 0x80)) :: r)
          else
            match pol with
            | DecodePolicy.strict => none
            | DecodePolicy.ignore => decodeBytes pol bs
            | DecodePolicy.replace => (decodeBytes pol bs).map (fun r => 0xFFFD :: r)
        | [] =>
          match pol with
          | DecodePolicy.strict => none
          | DecodePolicy.ignore => decodeBytes pol bs
          | DecodePolicy.replace => (decodeBytes pol bs).map (fun r => 0xFFFD :: r)
      | [] =>
        match pol with
        | DecodePolicy.strict => none
        | DecodePolicy.ignore => some []
        | DecodePolicy.replace => some [0xFFFD]
    else if 0xF0 ≤ b && b ≤ 0xF4 then
      match hbs : bs with
      | c1 :: bs' =>
        match hbs' : bs' with
        | c2 :: bs'' =>
          match hbs'' : bs'' with
          | c3 :: bs4 =>
            if isCont c1 && isCont c2 && isCont c3 then
              (decodeBytes pol bs4).map
                (fun r => ((b - 0xF0) * 0x40000 + (c1 - 0x80) * 0x1000 +
                  (c2 - 0x80) * 0x40 + (c3 - 0x80)) :: r)
            else
              match pol with
              | DecodePolicy.strict => none
              | DecodePolicy.ignore => decodeBytes pol bs
              | DecodePolicy.replace => (decodeBytes pol bs).map (fun r => 0xFFFD :: r)
          | [] =>
            match pol with
            | DecodePolicy.strict => none
            | DecodePolicy.ignore => decodeBytes pol bs
            | DecodePolicy.replace => (decodeBytes pol bs).map (fun r => 0xFFFD :: r)
        | [] =>
          match pol with
          | DecodePolicy.strict => none
          | DecodePolicy.ignore => decodeBytes pol bs
          | DecodePolicy.replace => (decodeBytes pol bs).map (fun r => 0xFFFD :: r)
      | [] =>
        match pol with
        | DecodePolicy.strict => none
        | DecodePolicy.ignore => some []
        | DecodePolicy.replace => some [0xFFFD]
    else
      match pol with
      | DecodePolicy.strict => none
      | DecodePolicy.ignore => decodeBytes pol bs
      | DecodePolicy.replace => (decodeBytes pol bs).map (fun r => 0xFFFD :: r)
termination_by l => l.length
decreasing_by
  all_goals simp_wf
  all_goals try (have hlen := congrArg List.length hbs; simp at hlen)
  all_goals try (have hlen' := congrArg List.length hbs'; simp at hlen')
  all_goals try (have hlen'' := congrArg List.length hbs''; simp at hlen'')
  all_goals omega

/-- Under the lossy `ignore` policy, decoding is total: no byte
sequence makes it raise. -/
theorem decodeBytes_ignore_isSome : ∀ (n : Nat) (l : List Nat), l.length ≤ n →
    (decodeBytes DecodePolicy.ignore l).isSome = true := by
  intro n
  induction n with
  | zero =>
    intro l hl
    obtain rfl : l = [] := List.length_eq_zero.mp (Nat.le_zero.mp hl)
    rw [decodeBytes]; rfl
  | succ n ih =>
    intro l hl
    match l with
    | [] => rw [decodeBytes]; rfl
    | b :: bs =>
      have hb : bs.length ≤ n := by
        simp only [List.length_cons] at hl; omega
      unfold decodeBytes
      by_cases h1 : b < 0x80
      · simp only [if_pos h1, Option.isSome_map']
        exact ih bs hb
      · rw [if_neg h1]
        by_cases h2 : (0xC2 ≤ b && b ≤ 0xDF) = true
        · rw [if_pos h2]
          rcases bs with _ | ⟨c1, bs2⟩
          · rfl
          · have hb2 : bs2.length ≤ n := by
              simp only [List.length_cons] at hb; omega
            simp only []
            by_cases hc : isCont c1 = true
            · simp only [if_pos hc, Option.isSome_map']
              exact ih bs2 hb2
            · simp only [if_neg hc]
              exact ih (c1 :: bs2) hb
        · rw [if_neg h2]
          by_cases h3 : (0xE0 ≤ b && b ≤ 0xEF) = true
          · rw [if_pos h3]
            rcases bs with _ | ⟨c1, bs'⟩
            · rfl
            · rcases bs' with _ | ⟨c2, bs3⟩
              · exact ih [c1] hb
              · have hb3 : bs3.length ≤ n := by
                  simp only [List.length_cons] at hb; omega
                simp only []
                by_cases hc : (isCont c1 && isCont c2) = true
                · simp only [if_pos hc, Option.isSome_map']
                  exact ih bs3 hb3
                · simp only [if_neg hc]
                  exact ih (c1 :: c2 :: bs3) hb
          · rw [if_neg h3]
            by_cases h4 : (0xF0 ≤ b && b ≤ 0xF4) = true
            · rw [if_pos h4]
              rcases bs with _ | ⟨c1, bs'⟩
              · rfl
              · rcases bs' with _ | ⟨c2, bs''⟩
                · exact ih [c1] hb
                · rcases bs'' with _ | ⟨c3, bs4⟩
                  · exact ih [c1, c2] hb
                  · have hb4 : bs4.length ≤ n := by
                      simp only [List.length_cons] at hb; omega
                    simp only []
                    by_cases hc : (isCont c1 && isCont c2 && isCont c3) = true
                    · simp only [if_pos hc, Option.isSome_map']
                      exact ih bs4 hb4
                    · simp only [if_neg hc]
                      exact ih (c1 :: c2 :: c3 :: bs4) hb
            · rw [if_neg h4]
              exact ih bs hb

/-- `Protocol.lineReceived` (protocol.py lines 62-65): decode the bytes
with the connection's configured decode policy and hand the decoded text
to the active parser's `handle_line`.  The result records the call that
is made — which parser reference receives which decoded text — and is
`none` when decoding raises. -/
def Protocol.lineReceived (p : Protocol) (bytes : List Nat) :
    Option (Option Parser × List Nat) :=
  (decodeBytes p.decodeArgs bytes).map (fun text => (p.parserRef, text))

/-- Claim C9: with the default lossy decode policy (`errors='ignore'`),
no byte sequence delivered as a line makes decoding raise — malformed
bytes are resolved by the policy — and the decoded text is handed to the
connection's active parser's line handler. -/
theorem decode_never_raises (p : Protocol) (bytes : List Nat)
    (h : p.decodeArgs = DecodePolicy.ignore) :
    ∃ text, decodeBytes p.decodeArgs bytes = some text ∧
      p.lineReceived bytes = some (p.parserRef, text) := by
  have hs : (decodeBytes p.decodeArgs bytes).isSome = true := by
    rw [h]
    exact decodeBytes_ignore_isSome bytes.length bytes (Nat.le_refl _)
  obtain ⟨text, ht⟩ := Option.isSome_iff_exists.mp hs
  refine ⟨text, ht, ?_⟩
  unfold Protocol.lineReceived
  rw [ht]
  rfl

theorem decode_never_raises_witness :
    (Protocol.mk "127.0.0.1" 1987 none DecodePolicy.replace
        DecodePolicy.ignore).decodeArgs = DecodePolicy.ignore ∧
    ∃ text,
      decodeBytes (Protocol.mk "127.0.0.1" 1987 none DecodePolicy.replace
        DecodePolicy.ignore).decodeArgs [0xFF, 0x41] = some text ∧
      (Protocol.mk "127.0.0.1" 1987 none DecodePolicy.replace
        DecodePolicy.ignore).lineReceived [0xFF, 0x41] =
        some ((Protocol.mk "127.0.0.1" 1987 none DecodePolicy.replace
          DecodePolicy.ignore).parserRef, text) :=
  ⟨rfl, decode_never_raises _ [0xFF, 0x41] rfl⟩

/-! ## Menu / Intercept subsystem (modelled from the spec) -/

/-- The first list is a prefix of the second (character lists). -/
def startsWithL : List Char → List Char → Bool
  | [], _ => true
  | _ :: _, [] => false
  | a :: as, b :: bs => a == b && startsWithL as bs

/-- The first list occurs as a contiguous substring of the second. -/
def occursIn (needle : List Char) : List Char → Bool
  | [] => needle.isEmpty
  | c :: rest => startsWithL needle (c :: rest) || occursIn needle rest

/-- Modelled from the spec: `gsb/intercept.py` is not among the sources.
A `MenuItem` is a display label and an action; the action callable is
identified by a numeric id whose invocation is recorded as an event. -/
structure MenuItem where
  text : String
  funcId : Nat
deriving DecidableEq, Repr

/-- Modelled from the spec: a `Menu` is a title and an ordered sequence
of `MenuItem`s, acting as a parser. -/
structure Menu where
  title : String
  items : List MenuItem
deriving DecidableEq, Repr

/-- The caller as seen by the menu subsystem: its match field holds the
winning `MenuItem` rather than a regex match. -/
structure MenuCaller where
  connection : Option Nat
  text : String
  matched : Option MenuItem
deriving DecidableEq, Repr

/-- Observable effects of menu resolution: `action f` records invocation
of the item action `f`; the notifications report the "not found" and
"ambiguous" failure conditions to the connection. -/
inductive MEvent where
  | action : Nat → MEvent
  | notifyNotFound : MEvent
  | notifyAmbiguous : MEvent
deriving DecidableEq, Repr

/-- Lowercase a character list (the case-insensitivity of menu label
matching). -/
def lowerL (s : List Char) : List Char := s.map Char.toLower

/-- Strip leading and trailing whitespace from a character list (the
trimming applied to menu input). -/
def trimL (s : List Char) : List Char :=
  ((s.dropWhile Char.isWhitespace).reverse.dropWhile Char.isWhitespace).reverse

/-- The items whose label contains the input as a case-insensitive
substring. -/
def matchesOf (m : Menu) (t : List Char) : List MenuItem :=
  m.items.filter (fun it => occursIn (lowerL t) (lowerL it.text.data))

/-- Modelled from the spec: `Menu.match` from `gsb/intercept.py` is not
among the sources.  Per the spec (§4.3) and the behaviour exercised by
`src/tests/intercept_test.py::test_menu`: if the trimmed input is exactly
a dollar sign, the last item is selected unconditionally; otherwise the
input is matched case-insensitively as a substring against every item's
label — a unique match is selected, zero matches notify "not found" and
two or more notify "ambiguous", selecting nothing. -/
def Menu.matchItem (m : Menu) (c : MenuCaller) : Option MenuItem × List MEvent :=
  let t := trimL c.text.data
  if t = ['$'] then
    (m.items.getLast?, [])
  else
    match matchesOf m t with
    | [] => (none, [MEvent.notifyNotFound])
    | [it] => (some it, [])
    | _ => (none, [MEvent.notifyAmbiguous])

/-- Modelled from the spec: a menu acts as a parser whose line handler
resolves the input against the items and, when resolution selects an
item, invokes that item's action with the caller's match field set to
the winning item; failed resolutions invoke no action. -/
def Menu.handleLine (m : Menu) (c : MenuCaller) : MenuCaller × List MEvent :=
  match m.matchItem c with
  | (some it, es) => ({ c with matched := some it }, es ++ [MEvent.action it.funcId])
  | (none, es) => (c, es)

/-- Claim C8: menu line resolution — a trimmed input of exactly a dollar
sign selects the last item unconditionally; otherwise the input is
matched case-insensitively as a substring against every label, and
exactly one match invokes that item's action with the caller's match set
to the winning item, zero matches notify "not found" with no action, and
two or more matches notify "ambiguous" with no action. -/
theorem menu_resolution_cases (m : Menu) (c : MenuCaller) (hne : m.items ≠ []) :
    (trimL c.text.data = ['$'] →
      ∃ it, m.items.getLast? = some it ∧
        m.handleLine c = ({ c with matched := some it }, [MEvent.action it.funcId])) ∧
    (trimL c.text.data ≠ ['$'] → matchesOf m (trimL c.text.data) = [] →
      m.handleLine c = (c, [MEvent.notifyNotFound])) ∧
    (trimL c.text.data ≠ ['$'] → ∀ it, matchesOf m (trimL c.text.data) = [it] →
      m.handleLine c = ({ c with matched := some it }, [MEvent.action it.funcId])) ∧
    (trimL c.text.data ≠ ['$'] → 2 ≤ (matchesOf m (trimL c.text.data)).length →
      m.handleLine c = (c, [MEvent.notifyAmbiguous])) := by
  refine ⟨?_, ?_, ?_, ?_⟩
  · intro ht
    obtain ⟨it, hit⟩ := Option.isSome_iff_exists.mp (List.getLast?_isSome.mpr hne)
    refine ⟨it, hit, ?_⟩
    unfold Menu.handleLine Menu.matchItem
    simp [ht, hit]
  · intro ht hm
    unfold Menu.handleLine Menu.matchItem
    simp [ht, hm]
  · intro ht it hm
    unfold Menu.handleLine Menu.matchItem
    simp [ht, hm]
  · intro ht hlen
    rcases hm : matchesOf m (trimL c.text.data) with _ | ⟨a, rest⟩
    · rw [hm] at hlen; simp at hlen
    · rcases rest with _ | ⟨b, rest2⟩
      · rw [hm] at hlen; simp at hlen
      · unfold Menu.handleLine Menu.matchItem
        simp [ht, hm]

/-- The menu of `src/tests/intercept_test.py::test_menu`, with the item
actions numbered 1-3. -/
def testMenu : Menu :=
  { title := "Test Menu"
    items := [MenuItem.mk "First Thing" 1, MenuItem.mk "second Thing" 2,
              MenuItem.mk "Third Thing" 3] }

def dollarCaller : MenuCaller :=
  { connection := none, text := "$", matched := none }

theorem menu_resolution_cases_witness :
    (trimL dollarCaller.text.data = ['$'] →
      ∃ it, testMenu.items.getLast? = some it ∧
        testMenu.handleLine dollarCaller =
          ({ dollarCaller with matched := some it }, [MEvent.action it.funcId])) ∧
    (trimL dollarCaller.text.data ≠ ['$'] →
      matchesOf testMenu (trimL dollarCaller.text.data) = [] →
        testMenu.handleLine dollarCaller = (dollarCaller, [MEvent.notifyNotFound])) ∧
    (trimL dollarCaller.text.data ≠ ['$'] →
      ∀ it, matchesOf testMenu (trimL dollarCaller.text.data) = [it] →
        testMenu.handleLine dollarCaller =
          ({ dollarCaller with matched := some it }, [MEvent.action it.funcId])) ∧
    (trimL dollarCaller.text.data ≠ ['$'] →
      2 ≤ (matchesOf testMenu (trimL dollarCaller.text.data)).length →
        testMenu.handleLine dollarCaller = (dollarCaller, [MEvent.notifyAmbiguous])) :=
  menu_resolution_cases testMenu dollarCaller (by decide)

end GSB
